import Mathlib

/-!
Verification of the session storage and statistics engine of the
devops-study-app backend (`backend/storage.py`, `backend/models.py`).

The Python code is shallowly embedded as follows:
* text is `List Char`; the backing CSV file is `Option (List Char)`
  (`none` = the file does not exist);
* `datetime` values are a `PyDateTime` structure;
  `datetime.isoformat` / `datetime.fromisoformat` are modelled on the
  canonical textual forms the code itself produces (`YYYY-MM-DD`,
  optional separator + `HH[:MM[:SS[.ffffff]]]` time part, validated
  field ranges); timezone suffixes are not modelled since
  `datetime.now()` is naive;
* Python `int(...)` is `pyInt` (whitespace stripping, optional sign,
  decimal digits; digit-group underscores are not modelled),
  `str` of an integer is `intRepr`;
* the `csv` module reader/writer (default dialect: delimiter `,`,
  quotechar `"`, doubled quotes, QUOTE_MINIMAL, terminator CRLF) is an
  explicit character automaton `csvStep` / `runCsv` and the encoder
  `encodeRow`;
* a raised Python exception (`ValueError` from `int` /
  `fromisoformat`, pydantic `ValidationError`) is `Option.none`.
-/

/-- Decimal digit character for `d % 10` (`'0'`–`'9'`). -/
def digitChar (d : Nat) : Char := Char.ofNat (48 + d % 10)

/-- Two zero-padded decimal digits, Python's `%02d` for `n < 100`. -/
def pad2 (n : Nat) : List Char := [digitChar (n / 10), digitChar n]

/-- Four zero-padded decimal digits, Python's `%04d` for `n < 10000`. -/
def pad4 (n : Nat) : List Char := pad2 (n / 100) ++ pad2 (n % 100)

/-- Six zero-padded decimal digits, Python's `%06d` for `n < 1000000`. -/
def pad6 (n : Nat) : List Char := pad2 (n / 10000) ++ pad2 (n / 100 % 100) ++ pad2 (n % 100)

/-- Parse exactly two decimal digits. -/
def parse2 : List Char → Option (Nat × List Char)
  | a :: b :: rest =>
    if a.isDigit && b.isDigit then some (10 * (a.toNat - 48) + (b.toNat - 48), rest)
    else none
  | _ => none

/-- Parse exactly four decimal digits. -/
def parse4 (cs : List Char) : Option (Nat × List Char) := do
  let (hi, r1) ← parse2 cs
  let (lo, r2) ← parse2 r1
  pure (100 * hi + lo, r2)

/-- Expect a fixed character. -/
def expectChar : List Char → Char → Option (List Char)
  | c :: rest, e => if c = e then some rest else none
  | [], _ => none

/-- Value of a digit-character list, most significant first. -/
def digitsVal (cs : List Char) : Nat :=
  cs.foldl (fun a c => 10 * a + (c.toNat - 48)) 0

/-- Fractional-seconds part: 1 to 6 digits, scaled to microseconds
(as in `datetime.fromisoformat`). Returns microseconds and the rest. -/
def parseFrac (cs : List Char) : Option (Nat × List Char) :=
  let ds := cs.takeWhile Char.isDigit
  if 1 ≤ ds.length ∧ ds.length ≤ 6 then
    some (digitsVal ds * 10 ^ (6 - ds.length), cs.dropWhile Char.isDigit)
  else none

/-- Naive `datetime` value (as produced by `datetime.now()`). -/
structure PyDateTime where
  year : Nat
  month : Nat
  day : Nat
  hour : Nat
  minute : Nat
  second : Nat
  microsecond : Nat
deriving DecidableEq

/-- `datetime.month` is 1-based; February length follows the leap rule. -/
def daysInMonth (y m : Nat) : Nat :=
  if m = 2 then
    if y % 4 = 0 ∧ (y % 100 ≠ 0 ∨ y % 400 = 0) then 29 else 28
  else if m = 4 ∨ m = 6 ∨ m = 9 ∨ m = 11 then 30
  else 31

/-- Field ranges enforced by the `datetime` constructor
(and hence by `fromisoformat`). -/
def ValidDT (d : PyDateTime) : Prop :=
  1 ≤ d.year ∧ d.year ≤ 9999 ∧ 1 ≤ d.month ∧ d.month ≤ 12 ∧
  1 ≤ d.day ∧ d.day ≤ daysInMonth d.year d.month ∧
  d.hour ≤ 23 ∧ d.minute ≤ 59 ∧ d.second ≤ 59 ∧ d.microsecond ≤ 999999

instance (d : PyDateTime) : Decidable (ValidDT d) := by
  unfold ValidDT; exact inferInstance

/-- `datetime.isoformat()`: `YYYY-MM-DDTHH:MM:SS`, with `.ffffff`
appended exactly when `microsecond` is nonzero. -/
def isoformat (d : PyDateTime) : List Char :=
  pad4 d.year ++ '-' :: pad2 d.month ++ '-' :: pad2 d.day ++
  'T' :: pad2 d.hour ++ ':' :: pad2 d.minute ++ ':' :: pad2 d.second ++
  (if d.microsecond = 0 then [] else '.' :: pad6 d.microsecond)

/-- Time-of-day part of `fromisoformat`: empty means midnight; otherwise
one separator character then `HH[:MM[:SS[.ffffff]]]`. -/
def parseTimePart : List Char → Option (Nat × Nat × Nat × Nat)
  | [] => some (0, 0, 0, 0)
  | _sep :: rest => do
    let (h, r1) ← parse2 rest
    if r1 = [] then some (h, 0, 0, 0) else do
    let r2 ← expectChar r1 ':'
    let (mi, r3) ← parse2 r2
    if r3 = [] then some (h, mi, 0, 0) else do
    let r4 ← expectChar r3 ':'
    let (s, r5) ← parse2 r4
    match r5 with
    | [] => some (h, mi, s, 0)
    | c :: r6 =>
      if c = '.' ∨ c = ',' then do
        let (us, r7) ← parseFrac r6
        if r7 = [] then some (h, mi, s, us) else none
      else none

/-- `datetime.fromisoformat` on the date-time forms this program writes:
fails (`none`, modelling `ValueError`) on anything it cannot parse or
whose fields are out of range. -/
def fromisoformat (cs : List Char) : Option PyDateTime := do
  let (y, r1) ← parse4 cs
  let r2 ← expectChar r1 '-'
  let (mo, r3) ← parse2 r2
  let r4 ← expectChar r3 '-'
  let (dy, r5) ← parse2 r4
  let (h, mi, s, us) ← parseTimePart r5
  let d : PyDateTime := ⟨y, mo, dy, h, mi, s, us⟩
  if ValidDT d then some d else none

/-- Whitespace for Python's `str.strip()` as used by `int(...)`. -/
def isPySpace (c : Char) : Bool :=
  c = ' ' || c = '\t' || c = '\n' || c = '\r' || c = '\x0b' || c = '\x0c'

/-- Strip whitespace from both ends (Python `str.strip()`). -/
def stripSpaces (cs : List Char) : List Char :=
  ((cs.dropWhile isPySpace).reverse.dropWhile isPySpace).reverse

/-- Nonempty all-digit string to its value, else `none`. -/
def parseNatDigits (cs : List Char) : Option Nat :=
  if cs.isEmpty then none
  else if cs.all Char.isDigit then some (digitsVal cs)
  else none

/-- Python `int(s)` for decimal strings: strip whitespace, optional
sign, decimal digits. `none` models the raised `ValueError`. -/
def pyInt (cs : List Char) : Option Int :=
  match stripSpaces cs with
  | [] => none
  | c :: rest =>
    if c = '-' then (parseNatDigits rest).map (fun n => -(n : Int))
    else if c = '+' then (parseNatDigits rest).map (fun n => (n : Int))
    else (parseNatDigits (c :: rest)).map (fun n => (n : Int))

/-- Decimal digits of `n`, most significant first (`str(n)` for `n : Nat`). -/
def natRepr (n : Nat) : List Char :=
  if n = 0 then ['0'] else (Nat.digits 10 n).reverse.map digitChar

/-- Python `str` of an integer. -/
def intRepr (m : Int) : List Char :=
  if m < 0 then '-' :: natRepr m.natAbs else natRepr m.toNat

/-! ### The `csv` module: reader automaton and writer -/

/-- Characters that force quoting under QUOTE_MINIMAL: the delimiter,
the quote character, and the characters of the line terminator. -/
def isCsvSpecial (c : Char) : Bool :=
  c = ',' || c = '"' || c = '\r' || c = '\n'

/-- Reader states of the `csv` parsing automaton (default dialect). -/
inductive CsvMode where
  | startRecord
  | startField
  | inField
  | inQuoted
  | quoteInQuoted
  | eatCrnl
deriving DecidableEq

/-- Full reader state: accumulated field, current record, finished
records (all most-recent-last). -/
structure CsvSt where
  mode : CsvMode
  field : List Char
  record : List (List Char)
  records : List (List (List Char))
deriving DecidableEq

/-- Shared transition for a character seen where a new field may start. -/
def csvStepStartField (s : CsvSt) (c : Char) : CsvSt :=
  if c = '"' then { s with mode := .inQuoted }
  else if c = ',' then { s with mode := .startField, field := [], record := s.record ++ [[]] }
  else if c = '\r' ∨ c = '\n' then
    { mode := .eatCrnl, field := [], record := [], records := s.records ++ [s.record ++ [[]]] }
  else { s with mode := .inField, field := [c] }

/-- One step of the `csv` reader (default dialect, doubled quotes,
non-strict). A bare end-of-line at a record start yields no record,
matching the blank-row skip of `csv.DictReader`. -/
def csvStep (s : CsvSt) (c : Char) : CsvSt :=
  match s.mode with
  | .startRecord =>
    if c = '\r' ∨ c = '\n' then { s with mode := .eatCrnl }
    else csvStepStartField s c
  | .startField => csvStepStartField s c
  | .inField =>
    if c = ',' then { s with mode := .startField, field := [], record := s.record ++ [s.field] }
    else if c = '\r' ∨ c = '\n' then
      { mode := .eatCrnl, field := [], record := [], records := s.records ++ [s.record ++ [s.field]] }
    else { s with field := s.field ++ [c] }
  | .inQuoted =>
    if c = '"' then { s with mode := .quoteInQuoted }
    else { s with field := s.field ++ [c] }
  | .quoteInQuoted =>
    if c = '"' then { s with mode := .inQuoted, field := s.field ++ [c] }
    else if c = ',' then { s with mode := .startField, field := [], record := s.record ++ [s.field] }
    else if c = '\r' ∨ c = '\n' then
      { mode := .eatCrnl, field := [], record := [], records := s.records ++ [s.record ++ [s.field]] }
    else { s with mode := .inField, field := s.field ++ [c] }
  | .eatCrnl =>
    if c = '\r' ∨ c = '\n' then s
    else csvStepStartField { s with mode := .startRecord } c

/-- Flush the state at end of input. -/
def csvFinish (s : CsvSt) : List (List (List Char)) :=
  match s.mode with
  | .startRecord => s.records
  | .eatCrnl => s.records
  | _ => s.records ++ [s.record ++ [s.field]]

/-- Initial reader state. -/
def initCsvSt : CsvSt := ⟨.startRecord, [], [], []⟩

/-- Parse a whole character stream into records of fields. -/
def runCsv (cs : List Char) : List (List (List Char)) :=
  csvFinish (cs.foldl csvStep initCsvSt)

/-- Double every quote character (writer escaping). -/
def escapeQuotes : List Char → List Char
  | [] => []
  | c :: rest =>
    if c = '"' then '"' :: '"' :: escapeQuotes rest else c :: escapeQuotes rest

/-- A field needs quoting iff it contains a special character. -/
def needsQuote (f : List Char) : Bool := f.any isCsvSpecial

/-- Encode one field, quoted or raw. -/
def encodeFieldRaw (q : Bool) (f : List Char) : List Char :=
  if q then '"' :: escapeQuotes f ++ ['"'] else f

/-- Join encoded fields with the delimiter. -/
def joinComma : List (List Char) → List Char
  | [] => []
  | [f] => f
  | f :: rest => f ++ ',' :: joinComma rest

/-- `csv.writer.writerow` under the default dialect: QUOTE_MINIMAL
quoting (a lone empty field is quoted to keep the row non-blank),
fields joined by `,`, terminated by CRLF. -/
def encodeRow (fields : List (List Char)) : List Char :=
  joinComma (fields.map fun f =>
    encodeFieldRaw (needsQuote f || (decide (fields.length = 1) && f.isEmpty)) f)
  ++ ['\r', '\n']

/-! ### The data model (`models.py`) and storage (`storage.py`) -/

/-- `StudySessionCreate`: the client-supplied draft, before pydantic
validation (so invalid drafts are representable). -/
structure StudySessionCreate where
  minutes : Int
  tag : String
deriving DecidableEq

/-- `StudySession`: a fully populated stored record. -/
structure StudySession where
  id : String
  timestamp : PyDateTime
  minutes : Int
  tag : String
deriving DecidableEq

/-- `Stats`: aggregated statistics. The two maps are Python dicts,
modelled as insertion-ordered association lists. -/
structure Stats where
  total_time : Int
  time_by_tag : List (String × Int)
  total_sessions : Int
  sessions_by_tag : List (String × Int)
deriving DecidableEq

/-- Constructing a `StudySession` runs the pydantic field validators
inherited from `StudySessionCreate`: `minutes` has `gt=0` and `tag`
has `min_length=1`. `none` models the raised `ValidationError`. -/
def mkStudySession (id : String) (ts : PyDateTime) (m : Int) (tag : String) :
    Option StudySession :=
  if 0 < m ∧ tag ≠ "" then some ⟨id, ts, m, tag⟩ else none

/-- The CSV header fields (`CSV_HEADERS`). -/
def idKey : List Char := "id".data
def tsKey : List Char := "timestamp".data
def minKey : List Char := "minutes".data
def tagKey : List Char := "tag".data
def headerFields : List (List Char) := [idKey, tsKey, minKey, tagKey]

/-- The header row text written by `writer.writeheader()`. -/
def headerText : List Char := encodeRow headerFields

/-- `_create_csv_if_not_exists`: write the header iff the file is
missing; an existing file is left untouched. -/
def create_csv_if_not_exists (st : Option (List Char)) : Option (List Char) :=
  match st with
  | none => some headerText
  | some c => some c

/-- Index of a field name in the header (first occurrence). -/
def fieldIndex (header : List (List Char)) (k : List Char) : Option Nat :=
  match header with
  | [] => none
  | h :: t => if h = k then some 0 else (fieldIndex t k).map (· + 1)

/-- `row[k]` on a `csv.DictReader` row: `none` models both a field name
absent from the header (`KeyError`) and a short row's `restval None`
(which makes every later conversion raise). -/
def dictGet (header : List (List Char)) (row : List (List Char)) (k : List Char) :
    Option (List Char) :=
  (fieldIndex header k).bind fun i => row.get? i

/-- Decode one `DictReader` row into a `StudySession`, as the loop body
of `get_all_sessions` does: `datetime.fromisoformat` on `timestamp`,
`int` on `minutes`, then the pydantic validators. -/
def rowToSession (header : List (List Char)) (row : List (List Char)) :
    Option StudySession := do
  let idv ← dictGet header row idKey
  let tsv ← dictGet header row tsKey
  let mv ← dictGet header row minKey
  let tagv ← dictGet header row tagKey
  let ts ← fromisoformat tsv
  let m ← pyInt mv
  mkStudySession (String.mk idv) ts m (String.mk tagv)

/-- Decode all rows in file order; the first failure aborts the whole
read (the exception propagates, no partial result, no skipping). -/
def decodeRows (header : List (List Char)) : List (List (List Char)) → Option (List StudySession)
  | [] => some []
  | r :: rest => do
    let s ← rowToSession header r
    let l ← decodeRows header rest
    pure (s :: l)

/-- The row a `StudySession` is written as, in `CSV_HEADERS` order. -/
def sessionToRow (s : StudySession) : List (List Char) :=
  [s.id.data, isoformat s.timestamp, intRepr s.minutes, s.tag.data]

/-- `get_all_sessions`: ensure the file exists, read it with
`csv.DictReader` (field names from the first row, blank rows skipped),
decode every row. Returns the file state and the result (`none` is a
raised exception). -/
def get_all_sessions (st : Option (List Char)) :
    Option (List Char) × Option (List StudySession) :=
  let st1 := create_csv_if_not_exists st
  let content := st1.getD []
  match runCsv content with
  | [] => (st1, some [])
  | header :: rows => (st1, decodeRows header (rows.filter fun r => !r.isEmpty))

/-- `save_session`: ensure the file exists, build the `StudySession`
(pydantic re-validates `minutes > 0` and `tag` nonempty), then append
its encoded row. `genId` is the `uuid.uuid4()` value and `now` the
`datetime.now()` value sampled during the call. -/
def save_session (st : Option (List Char)) (genId : String) (now : PyDateTime)
    (d : StudySessionCreate) : Option (List Char) × Option StudySession :=
  let st1 := create_csv_if_not_exists st
  match mkStudySession genId now d.minutes d.tag with
  | none => (st1, none)
  | some s => (some (st1.getD [] ++ encodeRow (sessionToRow s)), some s)

/-- `str.lower()` on the ASCII range (the only case folding exercised
by this program's data). -/
def pyCharLower (c : Char) : Char :=
  if 'A' ≤ c ∧ c ≤ 'Z' then Char.ofNat (c.toNat + 32) else c

/-- `str.lower()` of a whole string. -/
def pyLower (s : String) : String := String.mk (s.data.map pyCharLower)

/-- `get_sessions_by_tag`: case-insensitive filter over `get_all_sessions`. -/
def get_sessions_by_tag (st : Option (List Char)) (tag : String) :
    Option (List Char) × Option (List StudySession) :=
  let r := get_all_sessions st
  (r.1, r.2.map fun l => l.filter fun s => pyLower s.tag == pyLower tag)

/-- Key membership test (`tag not in time_by_tag`). -/
def hasKey (m : List (String × Int)) (k : String) : Bool :=
  m.any fun p => p.1 == k

/-- `m[k] += v` on a dict with `k` present: in-place update, insertion
order preserved. -/
def bump (m : List (String × Int)) (k : String) (v : Int) : List (String × Int) :=
  m.map fun p => if p.1 = k then (p.1, p.2 + v) else p

/-- Loop body of `get_statistics`: insert missing keys with value 0 in
both dicts, then add this session's minutes and count. -/
def aggStep (acc : List (String × Int) × List (String × Int)) (s : StudySession) :
    List (String × Int) × List (String × Int) :=
  let m := if hasKey acc.1 s.tag then acc
           else (acc.1 ++ [(s.tag, 0)], acc.2 ++ [(s.tag, 0)])
  (bump m.1 s.tag s.minutes, bump m.2 s.tag 1)

/-- The pure aggregation of `get_statistics` over a session list
(`Aggregate` in the spec): total minutes, per-tag maps, count. -/
def aggregate (sessions : List StudySession) : Stats :=
  let total_minutes : Int := (sessions.map (·.minutes)).sum
  let maps := sessions.foldl aggStep ([], [])
  { total_time := total_minutes
    time_by_tag := maps.1
    total_sessions := (sessions.length : Int)
    sessions_by_tag := maps.2 }

/-- `get_statistics`: list all sessions, then aggregate. -/
def get_statistics (st : Option (List Char)) :
    Option (List Char) × Option Stats :=
  let r := get_all_sessions st
  (r.1, r.2.map aggregate)

/-- Keys of an association-list dict, in insertion order. -/
def dictKeys (m : List (String × Int)) : List String := m.map Prod.fst

/-- Sum of the values of an association-list dict. -/
def sumVals (m : List (String × Int)) : Int := (m.map Prod.snd).sum

/-- Tags in order of first appearance (Python dict key order). -/
def firstSeen (ts : List String) : List String :=
  ts.foldl (fun acc t => if t ∈ acc then acc else acc ++ [t]) []

/-! ### Round-trip lemmas for digits, integers and datetimes -/

lemma digitChar_spec (k : Nat) :
    (digitChar k).isDigit = true ∧ (digitChar k).toNat = 48 + k % 10 ∧
    isPySpace (digitChar k) = false ∧ digitChar k ≠ '-' ∧ digitChar k ≠ '+' := by
  have h : k % 10 < 10 := Nat.mod_lt _ (by omega)
  have H : ∀ j < 10, (Char.ofNat (48 + j)).isDigit = true ∧
      (Char.ofNat (48 + j)).toNat = 48 + j ∧
      isPySpace (Char.ofNat (48 + j)) = false ∧
      Char.ofNat (48 + j) ≠ '-' ∧ Char.ofNat (48 + j) ≠ '+' := by decide
  simpa [digitChar] using H _ h

lemma parse2_pad2 (n : Nat) (r : List Char) (h : n < 100) :
    parse2 (pad2 n ++ r) = some (n, r) := by
  have h1 := digitChar_spec (n / 10)
  have h2 := digitChar_spec n
  simp only [pad2, List.cons_append, List.nil_append, parse2, h1.1, h2.1,
    Bool.and_self, if_true, h1.2.1, h2.2.1]
  have : 10 * (48 + n / 10 % 10 - 48) + (48 + n % 10 - 48) = n := by omega
  rw [this]

lemma parse4_pad4 (n : Nat) (r : List Char) (h : n < 10000) :
    parse4 (pad4 n ++ r) = some (n, r) := by
  have e : pad4 n ++ r = pad2 (n / 100) ++ (pad2 (n % 100) ++ r) := by
    simp [pad4, List.append_assoc]
  rw [parse4, e, parse2_pad2 _ _ (by omega)]
  simp only [Option.bind_eq_bind, Option.some_bind]
  rw [parse2_pad2 _ _ (by omega)]
  simp only [Option.some_bind]
  have : 100 * (n / 100) + n % 100 = n := by omega
  rw [this]
  rfl

lemma foldl_digits_pad2 (v n : Nat) (h : n < 100) :
    List.foldl (fun a c => 10 * a + (c.toNat - 48)) v (pad2 n) = 100 * v + n := by
  have h1 := digitChar_spec (n / 10)
  have h2 := digitChar_spec n
  simp only [pad2, List.foldl_cons, List.foldl_nil, h1.2.1, h2.2.1]
  omega

lemma digitsVal_pad6 (n : Nat) (h : n < 1000000) : digitsVal (pad6 n) = n := by
  rw [digitsVal, pad6, List.foldl_append, List.foldl_append,
    foldl_digits_pad2 _ _ (by omega), foldl_digits_pad2 _ _ (by omega),
    foldl_digits_pad2 _ _ (by omega)]
  omega

lemma takeWhile_eq_self_of {p : Char → Bool} :
    ∀ l : List Char, (∀ c ∈ l, p c = true) → l.takeWhile p = l := by
  intro l h
  induction l with
  | nil => rfl
  | cons c t ih =>
    have hc := h c (by simp)
    simp only [List.takeWhile_cons, hc, if_true, List.cons.injEq, true_and]
    exact ih fun x hx => h x (by simp [hx])

lemma dropWhile_eq_nil_of {p : Char → Bool} :
    ∀ l : List Char, (∀ c ∈ l, p c = true) → l.dropWhile p = [] := by
  intro l h
  induction l with
  | nil => rfl
  | cons c t ih =>
    have hc := h c (by simp)
    simp only [List.dropWhile_cons, hc, if_true]
    exact ih fun x hx => h x (by simp [hx])

lemma dropWhile_eq_self_of_all {p : Char → Bool} :
    ∀ l : List Char, (∀ c ∈ l, p c = false) → l.dropWhile p = l := by
  intro l h
  cases l with
  | nil => rfl
  | cons c t => rw [List.dropWhile_cons, h c (by simp)]; simp

lemma stripSpaces_eq_self_of (l : List Char) (h : ∀ c ∈ l, isPySpace c = false) :
    stripSpaces l = l := by
  rw [stripSpaces, dropWhile_eq_self_of_all l h,
    dropWhile_eq_self_of_all _ (fun c hc => h c (by simpa using hc)),
    List.reverse_reverse]

lemma pad6_all_digit (n : Nat) : ∀ c ∈ pad6 n, c.isDigit = true := by
  intro c hc
  simp only [pad6, pad2, List.append_assoc, List.cons_append, List.nil_append,
    List.mem_cons, List.not_mem_nil, or_false] at hc
  rcases hc with h | h | h | h | h | h <;> rw [h] <;> exact (digitChar_spec _).1

lemma parseFrac_pad6 (n : Nat) (h : n < 1000000) :
    parseFrac (pad6 n) = some (n, []) := by
  have hall := pad6_all_digit n
  have hlen : (pad6 n).length = 6 := by simp [pad6, pad2]
  rw [parseFrac, takeWhile_eq_self_of _ hall, dropWhile_eq_nil_of _ hall]
  rw [if_pos (by omega)]
  rw [digitsVal_pad6 _ h, hlen]
  norm_num

lemma pad2_ne_nil (n : Nat) : pad2 n ≠ [] := by simp [pad2]

lemma daysInMonth_le (y m : Nat) : daysInMonth y m ≤ 31 := by
  rw [daysInMonth]
  split
  · split <;> omega
  · split <;> omega

lemma parseTimePart_iso (hh mi ss us : Nat) (h7 : hh ≤ 23) (h8 : mi ≤ 59)
    (h9 : ss ≤ 59) (h10 : us ≤ 999999) :
    parseTimePart ('T' :: (pad2 hh ++ (':' :: (pad2 mi ++
      (':' :: (pad2 ss ++ (if us = 0 then [] else '.' :: pad6 us))))))) =
    some (hh, mi, ss, us) := by
  rw [parseTimePart]
  rw [parse2_pad2 _ _ (by omega)]
  simp only [Option.bind_eq_bind, Option.some_bind]
  rw [if_neg (by simp)]
  rw [show expectChar (':' :: (pad2 mi ++ (':' :: (pad2 ss ++
    (if us = 0 then [] else '.' :: pad6 us))))) ':' = some (pad2 mi ++
    (':' :: (pad2 ss ++ (if us = 0 then [] else '.' :: pad6 us)))) from rfl]
  simp only [Option.some_bind]
  rw [parse2_pad2 _ _ (by omega)]
  simp only [Option.some_bind]
  rw [if_neg (by simp)]
  rw [show expectChar (':' :: (pad2 ss ++ (if us = 0 then [] else '.' :: pad6 us))) ':'
    = some (pad2 ss ++ (if us = 0 then [] else '.' :: pad6 us)) from rfl]
  simp only [Option.some_bind]
  rw [parse2_pad2 _ _ (by omega)]
  simp only [Option.some_bind]
  by_cases hus : us = 0
  · subst hus
    simp
  · rw [if_neg hus]
    simp only [true_or, if_true]
    rw [parseFrac_pad6 _ (by omega)]
    simp

lemma fromisoformat_isoformat (d : PyDateTime) (h : ValidDT d) :
    fromisoformat (isoformat d) = some d := by
  obtain ⟨y, mo, dy, hh, mi, ss, us⟩ := d
  obtain ⟨h1, h2, h3, h4, h5, h6, h7, h8, h9, h10⟩ := h
  simp only at h1 h2 h3 h4 h5 h6 h7 h8 h9 h10
  have hiso : isoformat ⟨y, mo, dy, hh, mi, ss, us⟩ =
      pad4 y ++ ('-' :: (pad2 mo ++ ('-' :: (pad2 dy ++
      ('T' :: (pad2 hh ++ (':' :: (pad2 mi ++ (':' :: (pad2 ss ++
      (if us = 0 then [] else '.' :: pad6 us))))))))))) := by
    simp [isoformat, List.append_assoc]
  rw [hiso, fromisoformat]
  rw [parse4_pad4 _ _ (by omega)]
  simp only [Option.bind_eq_bind, Option.some_bind]
  rw [show expectChar ('-' :: (pad2 mo ++ ('-' :: (pad2 dy ++
      ('T' :: (pad2 hh ++ (':' :: (pad2 mi ++ (':' :: (pad2 ss ++
      (if us = 0 then [] else '.' :: pad6 us))))))))))) '-' = some (pad2 mo ++ ('-' :: (pad2 dy ++
      ('T' :: (pad2 hh ++ (':' :: (pad2 mi ++ (':' :: (pad2 ss ++
      (if us = 0 then [] else '.' :: pad6 us)))))))))) from rfl]
  simp only [Option.some_bind]
  rw [parse2_pad2 _ _ (by omega)]
  simp only [Option.some_bind]
  rw [show expectChar ('-' :: (pad2 dy ++
      ('T' :: (pad2 hh ++ (':' :: (pad2 mi ++ (':' :: (pad2 ss ++
      (if us = 0 then [] else '.' :: pad6 us))))))))) '-' = some (pad2 dy ++
      ('T' :: (pad2 hh ++ (':' :: (pad2 mi ++ (':' :: (pad2 ss ++
      (if us = 0 then [] else '.' :: pad6 us)))))))) from rfl]
  simp only [Option.some_bind]
  rw [parse2_pad2 _ _ (by have := daysInMonth_le y mo; omega)]
  simp only [Option.some_bind]
  rw [parseTimePart_iso _ _ _ _ h7 h8 h9 h10]
  simp only [Option.some_bind]
  rw [if_pos]
  exact ⟨h1, h2, h3, h4, h5, h6, h7, h8, h9, h10⟩

lemma foldr_digits_ofDigits (L : List Nat) (h : ∀ k ∈ L, k < 10) :
    L.foldr (fun k a => 10 * a + ((digitChar k).toNat - 48)) 0 = Nat.ofDigits 10 L := by
  induction L with
  | nil => simp [Nat.ofDigits]
  | cons k t ih =>
    rw [List.foldr_cons, ih (fun x hx => h x (by simp [hx])), Nat.ofDigits_cons]
    have hk : k < 10 := h k (by simp)
    have := (digitChar_spec k).2.1
    omega

lemma parseNatDigits_natRepr (n : Nat) : parseNatDigits (natRepr n) = some n := by
  by_cases h0 : n = 0
  · subst h0; decide
  · rw [natRepr, if_neg h0]
    have hlt : ∀ k ∈ Nat.digits 10 n, k < 10 :=
      fun k hk => Nat.digits_lt_base (by omega) hk
    have hne : Nat.digits 10 n ≠ [] := Nat.digits_ne_nil_iff_ne_zero.mpr h0
    rw [parseNatDigits]
    rw [if_neg (by simp [hne]), if_pos]
    · congr 1
      rw [digitsVal, List.map_reverse, List.foldl_reverse, List.foldr_map]
      rw [foldr_digits_ofDigits _ hlt]
      exact Nat.ofDigits_digits 10 n
    · simp only [List.all_eq_true]
      intro c hc
      rw [List.mem_map] at hc
      obtain ⟨k, _, rfl⟩ := hc
      exact (digitChar_spec k).1

lemma natRepr_first_digit (n : Nat) :
    ∃ k t, natRepr n = digitChar k :: t := by
  by_cases h0 : n = 0
  · exact ⟨0, [], by subst h0; rfl⟩
  · rw [natRepr, if_neg h0]
    have hne : (Nat.digits 10 n).reverse ≠ [] := by
      simp [Nat.digits_ne_nil_iff_ne_zero.mpr h0]
    cases hrev : (Nat.digits 10 n).reverse with
    | nil => exact absurd hrev hne
    | cons k t => exact ⟨k, t.map digitChar, by simp⟩

lemma natRepr_all_digit (n : Nat) : ∀ c ∈ natRepr n, c.isDigit = true := by
  intro c hc
  by_cases h0 : n = 0
  · subst h0
    rw [show natRepr 0 = ['0'] from rfl, List.mem_singleton] at hc
    rw [hc]; decide
  · rw [natRepr, if_neg h0, List.mem_map] at hc
    obtain ⟨k, _, rfl⟩ := hc
    exact (digitChar_spec k).1

lemma natRepr_no_space (n : Nat) : ∀ c ∈ natRepr n, isPySpace c = false := by
  intro c hc
  by_cases h0 : n = 0
  · subst h0
    rw [show natRepr 0 = ['0'] from rfl, List.mem_singleton] at hc
    rw [hc]; decide
  · rw [natRepr, if_neg h0, List.mem_map] at hc
    obtain ⟨k, _, rfl⟩ := hc
    exact (digitChar_spec k).2.2.1

lemma pyInt_natRepr (n : Nat) : pyInt (natRepr n) = some (n : Int) := by
  have hstrip : stripSpaces (natRepr n) = natRepr n :=
    stripSpaces_eq_self_of _ (natRepr_no_space n)
  obtain ⟨k, t, hform⟩ := natRepr_first_digit n
  rw [pyInt, hstrip, hform]
  simp only
  rw [if_neg (digitChar_spec k).2.2.2.1, if_neg (digitChar_spec k).2.2.2.2]
  rw [← hform, parseNatDigits_natRepr]
  rfl

lemma pyInt_intRepr_pos (m : Int) (h : 0 < m) : pyInt (intRepr m) = some m := by
  rw [intRepr, if_neg (by omega), pyInt_natRepr]
  congr 1
  exact Int.toNat_of_nonneg (le_of_lt h)

/-! ### Round-trip lemmas for the `csv` reader/writer -/

/-- A state at the boundary between records, with `R` already emitted. -/
def RecStart (s : CsvSt) (R : List (List (List Char))) : Prop :=
  s = ⟨.startRecord, [], [], R⟩ ∨ s = ⟨.eatCrnl, [], [], R⟩

/-- `e` is a legal writer encoding of the field value `v`. -/
def FieldEnc (e v : List Char) : Prop :=
  e = '"' :: escapeQuotes v ++ ['"'] ∨ (e = v ∧ needsQuote v = false)

lemma isCsvSpecial_eq_false {c : Char} (h : isCsvSpecial c = false) :
    c ≠ ',' ∧ c ≠ '"' ∧ c ≠ '\r' ∧ c ≠ '\n' := by
  have := h
  simp only [isCsvSpecial, Bool.or_eq_false_iff, decide_eq_false_iff_not] at this
  exact ⟨this.1.1.1, this.1.1.2, this.1.2, this.2⟩

lemma step_inField_char {c : Char} (h : isCsvSpecial c = false) (f r R) :
    csvStep ⟨.inField, f, r, R⟩ c = ⟨.inField, f ++ [c], r, R⟩ := by
  obtain ⟨h1, _, h3, h4⟩ := isCsvSpecial_eq_false h
  simp [csvStep, h1, h3, h4]

lemma step_inField_comma (f r R) :
    csvStep ⟨.inField, f, r, R⟩ ',' = ⟨.startField, [], r ++ [f], R⟩ := by
  simp [csvStep]

lemma step_inField_cr (f r R) :
    csvStep ⟨.inField, f, r, R⟩ '\r' = ⟨.eatCrnl, [], [], R ++ [r ++ [f]]⟩ := by
  simp [csvStep]

lemma step_inQuoted_quote (f r R) :
    csvStep ⟨.inQuoted, f, r, R⟩ '"' = ⟨.quoteInQuoted, f, r, R⟩ := by
  simp [csvStep]

lemma step_inQuoted_char {c : Char} (h : c ≠ '"') (f r R) :
    csvStep ⟨.inQuoted, f, r, R⟩ c = ⟨.inQuoted, f ++ [c], r, R⟩ := by
  simp [csvStep, h]

lemma step_qiq_quote (f r R) :
    csvStep ⟨.quoteInQuoted, f, r, R⟩ '"' = ⟨.inQuoted, f ++ ['"'], r, R⟩ := by
  simp [csvStep]

lemma step_qiq_comma (f r R) :
    csvStep ⟨.quoteInQuoted, f, r, R⟩ ',' = ⟨.startField, [], r ++ [f], R⟩ := by
  simp [csvStep]

lemma step_qiq_cr (f r R) :
    csvStep ⟨.quoteInQuoted, f, r, R⟩ '\r' = ⟨.eatCrnl, [], [], R ++ [r ++ [f]]⟩ := by
  simp [csvStep]

lemma step_sf_quote (f r R) :
    csvStep ⟨.startField, f, r, R⟩ '"' = ⟨.inQuoted, f, r, R⟩ := by
  simp [csvStep, csvStepStartField]

lemma step_sf_comma (f r R) :
    csvStep ⟨.startField, f, r, R⟩ ',' = ⟨.startField, [], r ++ [[]], R⟩ := by
  simp [csvStep, csvStepStartField]

lemma step_sf_cr (f r R) :
    csvStep ⟨.startField, f, r, R⟩ '\r' = ⟨.eatCrnl, [], [], R ++ [r ++ [[]]]⟩ := by
  simp [csvStep, csvStepStartField]

lemma step_sf_char {c : Char} (h : isCsvSpecial c = false) (f r R) :
    csvStep ⟨.startField, f, r, R⟩ c = ⟨.inField, [c], r, R⟩ := by
  obtain ⟨h1, h2, h3, h4⟩ := isCsvSpecial_eq_false h
  simp [csvStep, csvStepStartField, h1, h2, h3, h4]

lemma step_eatCrnl_nl (f r R) :
    csvStep ⟨.eatCrnl, f, r, R⟩ '\n' = ⟨.eatCrnl, f, r, R⟩ := by
  simp [csvStep]

lemma step_recStart_agree {s : CsvSt} {R} (hs : RecStart s R) {c : Char}
    (hcr : c ≠ '\r') (hnl : c ≠ '\n') :
    csvStep s c = csvStep ⟨.startField, [], [], R⟩ c := by
  rcases hs with rfl | rfl
  · simp [csvStep, hcr, hnl, csvStepStartField]
  · simp [csvStep, hcr, hnl, csvStepStartField]

lemma foldl_inField {v : List Char} (hv : ∀ c ∈ v, isCsvSpecial c = false) (acc r R) :
    List.foldl csvStep ⟨.inField, acc, r, R⟩ v = ⟨.inField, acc ++ v, r, R⟩ := by
  induction v generalizing acc with
  | nil => simp
  | cons c t ih =>
    rw [List.foldl_cons, step_inField_char (hv c (by simp)) acc r R,
      ih (fun x hx => hv x (by simp [hx]))]
    simp

lemma foldl_inQuoted (v : List Char) (acc r R) :
    List.foldl csvStep ⟨.inQuoted, acc, r, R⟩ (escapeQuotes v) = ⟨.inQuoted, acc ++ v, r, R⟩ := by
  induction v generalizing acc with
  | nil => simp [escapeQuotes]
  | cons c t ih =>
    by_cases hc : c = '"'
    · subst hc
      rw [escapeQuotes, if_pos rfl, List.foldl_cons, List.foldl_cons,
        step_inQuoted_quote, step_qiq_quote, ih]
      simp
    · rw [escapeQuotes, if_neg hc, List.foldl_cons, step_inQuoted_char hc, ih]
      simp

lemma fieldEnc_raw (v : List Char) (extra : Bool) :
    FieldEnc (encodeFieldRaw (needsQuote v || extra) v) v := by
  cases hq : needsQuote v
  · cases extra
    · right
      exact ⟨by simp [encodeFieldRaw], hq⟩
    · left
      simp [encodeFieldRaw]
  · left
    simp [encodeFieldRaw]


lemma notSpecial_of_noQuote {v : List Char} (hq : needsQuote v = false) :
    ∀ c ∈ v, isCsvSpecial c = false := by
  intro c hc
  by_contra hcon
  have : needsQuote v = true := by
    rw [needsQuote, List.any_eq_true]
    exact ⟨c, hc, by revert hcon; cases isCsvSpecial c <;> simp⟩
  rw [this] at hq; cases hq

lemma foldl_encField_comma_sf {e v : List Char} (he : FieldEnc e v) (r R rest) :
    List.foldl csvStep ⟨.startField, [], r, R⟩ (e ++ ',' :: rest) =
    List.foldl csvStep ⟨.startField, [], r ++ [v], R⟩ rest := by
  rcases he with rfl | ⟨rfl, hq⟩
  · have hsplit : ('"' :: escapeQuotes v ++ ['"']) ++ ',' :: rest =
        '"' :: (escapeQuotes v ++ ('"' :: ',' :: rest)) := by simp
    rw [hsplit, List.foldl_cons, step_sf_quote, List.foldl_append, foldl_inQuoted,
      List.nil_append, List.foldl_cons, step_inQuoted_quote, List.foldl_cons, step_qiq_comma]
  · have hv := notSpecial_of_noQuote hq
    cases e with
    | nil => rw [List.nil_append, List.foldl_cons, step_sf_comma]
    | cons c t =>
      rw [List.cons_append, List.foldl_cons, step_sf_char (hv c (by simp)),
        List.foldl_append, foldl_inField (fun x hx => hv x (by simp [hx])),
        List.foldl_cons, step_inField_comma]
      simp

lemma foldl_encField_cr_sf {e v : List Char} (he : FieldEnc e v) (r R rest) :
    List.foldl csvStep ⟨.startField, [], r, R⟩ (e ++ '\r' :: rest) =
    List.foldl csvStep ⟨.eatCrnl, [], [], R ++ [r ++ [v]]⟩ rest := by
  rcases he with rfl | ⟨rfl, hq⟩
  · have hsplit : ('"' :: escapeQuotes v ++ ['"']) ++ '\r' :: rest =
        '"' :: (escapeQuotes v ++ ('"' :: '\r' :: rest)) := by simp
    rw [hsplit, List.foldl_cons, step_sf_quote, List.foldl_append, foldl_inQuoted,
      List.nil_append, List.foldl_cons, step_inQuoted_quote, List.foldl_cons, step_qiq_cr]
  · have hv := notSpecial_of_noQuote hq
    cases e with
    | nil => rw [List.nil_append, List.foldl_cons, step_sf_cr]
    | cons c t =>
      rw [List.cons_append, List.foldl_cons, step_sf_char (hv c (by simp)),
        List.foldl_append, foldl_inField (fun x hx => hv x (by simp [hx])),
        List.foldl_cons, step_inField_cr]
      simp

lemma fieldEnc_head_not_eol {e v : List Char} (he : FieldEnc e v) {c0 : Char}
    {e' : List Char} (hform : e = c0 :: e') : c0 ≠ '\r' ∧ c0 ≠ '\n' := by
  rcases he with heq | ⟨heq, hq⟩
  · rw [hform, List.cons_append] at heq
    have : c0 = '"' := by
      simp only [List.cons.injEq] at heq
      exact heq.1
    subst this
    exact ⟨by decide, by decide⟩
  · have hc : c0 ∈ v := by rw [← heq, hform]; simp
    obtain ⟨_, _, h3, h4⟩ := isCsvSpecial_eq_false (notSpecial_of_noQuote hq c0 hc)
    exact ⟨h3, h4⟩

lemma foldl_encField_comma_rs {s R} (hs : RecStart s R) {e v : List Char}
    (he : FieldEnc e v) (rest : List Char) :
    List.foldl csvStep s (e ++ ',' :: rest) =
    List.foldl csvStep ⟨.startField, [], [v], R⟩ rest := by
  have hsf := foldl_encField_comma_sf he [] R rest
  rw [List.nil_append] at hsf
  by_cases hene : e = []
  · subst hene
    have hvnil : v = [] := by
      rcases he with h | ⟨h, _⟩
      · exact absurd h (by simp)
      · exact h.symm
    subst hvnil
    rw [List.nil_append, List.foldl_cons]
    rcases hs with rfl | rfl
    · rw [show csvStep ⟨CsvMode.startRecord, [], [], R⟩ ',' =
        ⟨CsvMode.startField, [], [[]], R⟩ by simp [csvStep, csvStepStartField]]
    · rw [show csvStep ⟨CsvMode.eatCrnl, [], [], R⟩ ',' =
        ⟨CsvMode.startField, [], [[]], R⟩ by simp [csvStep, csvStepStartField]]
  · obtain ⟨c0, e', hform⟩ := List.exists_cons_of_ne_nil hene
    obtain ⟨h3, h4⟩ := fieldEnc_head_not_eol he hform
    rw [hform] at hsf ⊢
    rw [List.cons_append, List.foldl_cons] at hsf ⊢
    rw [step_recStart_agree hs h3 h4]
    exact hsf

lemma foldl_encField_cr_rs {s R} (hs : RecStart s R) {e v : List Char}
    (he : FieldEnc e v) (hene : e ≠ []) (rest : List Char) :
    List.foldl csvStep s (e ++ '\r' :: rest) =
    List.foldl csvStep ⟨.eatCrnl, [], [], R ++ [[v]]⟩ rest := by
  have hsf := foldl_encField_cr_sf he [] R rest
  rw [List.nil_append] at hsf
  obtain ⟨c0, e', hform⟩ := List.exists_cons_of_ne_nil hene
  obtain ⟨h3, h4⟩ := fieldEnc_head_not_eol he hform
  rw [hform] at hsf ⊢
  rw [List.cons_append, List.foldl_cons] at hsf ⊢
  rw [step_recStart_agree hs h3 h4]
  exact hsf

lemma joinComma_cons2 (a b : List Char) (l : List (List Char)) :
    joinComma (a :: b :: l) = a ++ ',' :: joinComma (b :: l) := rfl

lemma foldl_join_sf (E : List Char → List Char) (vs : List (List Char)) (hne : vs ≠ [])
    (henc : ∀ v ∈ vs, FieldEnc (E v) v) (r R rest) :
    List.foldl csvStep ⟨.startField, [], r, R⟩ (joinComma (vs.map E) ++ '\r' :: rest) =
    List.foldl csvStep ⟨.eatCrnl, [], [], R ++ [r ++ vs]⟩ rest := by
  induction vs generalizing r with
  | nil => exact absurd rfl hne
  | cons v t ih =>
    cases t with
    | nil =>
      simp only [List.map_cons, List.map_nil]
      rw [show joinComma [E v] = E v from rfl]
      exact foldl_encField_cr_sf (henc v (by simp)) r R rest
    | cons w t' =>
      simp only [List.map_cons] at ih ⊢
      rw [joinComma_cons2, List.append_assoc, List.cons_append]
      rw [foldl_encField_comma_sf (henc v (by simp)) r R _]
      rw [ih (by simp) (fun x hx => henc x (by simp [hx])) (r ++ [v])]
      simp

lemma foldl_encodeRow_rs {fields : List (List Char)} (hne : fields ≠ []) {s R}
    (hs : RecStart s R) (rest : List Char) :
    List.foldl csvStep s (encodeRow fields ++ rest) =
    List.foldl csvStep ⟨.eatCrnl, [], [], R ++ [fields]⟩ rest := by
  cases fields with
  | nil => exact absurd rfl hne
  | cons f t =>
    cases t with
    | nil =>
      have hflag : FieldEnc (encodeFieldRaw
          (needsQuote f || (decide (([f] : List (List Char)).length = 1) && f.isEmpty)) f) f :=
        fieldEnc_raw f _
      have hene : encodeFieldRaw
          (needsQuote f || (decide (([f] : List (List Char)).length = 1) && f.isEmpty)) f ≠ [] := by
        rw [encodeFieldRaw]
        split
        · simp
        · rename_i hsp
          cases hf : f.isEmpty
          · simpa using hf
          · exfalso
            apply hsp
            simp [hf]
      rw [show encodeRow [f] = encodeFieldRaw
          (needsQuote f || (decide (([f] : List (List Char)).length = 1) && f.isEmpty)) f
          ++ ['\r', '\n'] from rfl]
      have hsplit : (encodeFieldRaw
          (needsQuote f || (decide (([f] : List (List Char)).length = 1) && f.isEmpty)) f
          ++ ['\r', '\n']) ++ rest = encodeFieldRaw
          (needsQuote f || (decide (([f] : List (List Char)).length = 1) && f.isEmpty)) f
          ++ '\r' :: '\n' :: rest := by simp
      rw [hsplit, foldl_encField_cr_rs hs hflag hene, List.foldl_cons, step_eatCrnl_nl]
    | cons g t' =>
      rw [encodeRow]
      simp only [List.map_cons, joinComma_cons2, List.append_assoc, List.cons_append,
        List.nil_append]
      rw [foldl_encField_comma_rs hs (fieldEnc_raw f _)]
      have hj := foldl_join_sf
        (fun x => encodeFieldRaw (needsQuote x ||
          (decide ((f :: g :: t').length = 1) && x.isEmpty)) x)
        (g :: t') (by simp)
        (fun v _ => fieldEnc_raw v _) [f] R ('\n' :: rest)
      simp only [List.map_cons] at hj
      rw [hj, List.foldl_cons, step_eatCrnl_nl]
      simp

lemma foldl_file_rs (rows : List (List (List Char))) (h : ∀ r ∈ rows, r ≠ []) :
    ∀ s R, RecStart s R →
    ∃ s', List.foldl csvStep s ((rows.map encodeRow).join) = s' ∧ RecStart s' (R ++ rows) := by
  induction rows with
  | nil =>
    intro s R hs
    exact ⟨s, by simp, by simpa using hs⟩
  | cons f t ih =>
    intro s R hs
    have hjoin : ((f :: t).map encodeRow).join = encodeRow f ++ (t.map encodeRow).join := by
      simp
    rw [hjoin, foldl_encodeRow_rs (h f (by simp)) hs]
    obtain ⟨s', hf', hrs'⟩ := ih (fun r hr => h r (by simp [hr]))
      ⟨.eatCrnl, [], [], R ++ [f]⟩ (R ++ [f]) (Or.inr rfl)
    refine ⟨s', hf', ?_⟩
    have : (R ++ [f]) ++ t = R ++ f :: t := by simp
    rwa [this] at hrs'

lemma csvFinish_recStart {s R} (hs : RecStart s R) : csvFinish s = R := by
  rcases hs with rfl | rfl <;> rfl

/-- The writer/reader round trip at file level: a file consisting of
encoded rows (each with at least one field) parses back to those rows. -/
lemma runCsv_encodeRows (rows : List (List (List Char))) (h : ∀ r ∈ rows, r ≠ []) :
    runCsv ((rows.map encodeRow).join) = rows := by
  obtain ⟨s', hf, hrs⟩ := foldl_file_rs rows h initCsvSt [] (Or.inl rfl)
  rw [runCsv, hf, csvFinish_recStart hrs]
  simp

/-- The writer/reader round trip for a single row. -/
lemma runCsv_encodeRow_single (fields : List (List Char)) (h : fields ≠ []) :
    runCsv (encodeRow fields) = [fields] := by
  have h1 := runCsv_encodeRows [fields] (by simpa using h)
  simpa using h1

/-! ### Decoding a written row -/

lemma string_mk_data (s : String) : String.mk s.data = s := by
  obtain ⟨l⟩ := s
  rfl

lemma fieldIndex_id : fieldIndex headerFields idKey = some 0 := by decide
lemma fieldIndex_ts : fieldIndex headerFields tsKey = some 1 := by decide
lemma fieldIndex_min : fieldIndex headerFields minKey = some 2 := by decide
lemma fieldIndex_tag : fieldIndex headerFields tagKey = some 3 := by decide

lemma rowToSession_sessionToRow (s : StudySession) (hm : 0 < s.minutes)
    (ht : s.tag ≠ "") (hts : ValidDT s.timestamp) :
    rowToSession headerFields (sessionToRow s) = some s := by
  obtain ⟨sid, sts, smin, stag⟩ := s
  simp only at hm ht hts
  have h0 : dictGet headerFields [sid.data, isoformat sts, intRepr smin, stag.data] idKey
      = some sid.data := by
    rw [dictGet, fieldIndex_id]; rfl
  have h1 : dictGet headerFields [sid.data, isoformat sts, intRepr smin, stag.data] tsKey
      = some (isoformat sts) := by
    rw [dictGet, fieldIndex_ts]; rfl
  have h2 : dictGet headerFields [sid.data, isoformat sts, intRepr smin, stag.data] minKey
      = some (intRepr smin) := by
    rw [dictGet, fieldIndex_min]; rfl
  have h3 : dictGet headerFields [sid.data, isoformat sts, intRepr smin, stag.data] tagKey
      = some stag.data := by
    rw [dictGet, fieldIndex_tag]; rfl
  rw [rowToSession, sessionToRow]
  simp only [h0, h1, h2, h3, Option.bind_eq_bind, Option.some_bind]
  rw [fromisoformat_isoformat _ hts]
  simp only [Option.some_bind]
  rw [pyInt_intRepr_pos _ hm]
  simp only [Option.some_bind]
  rw [mkStudySession, if_pos ⟨hm, by rw [string_mk_data]; exact ht⟩]

/-- Chronological order on datetimes: comparison of a mixed-radix
flattening that is monotone in each field over its valid range. -/
def dtKey (d : PyDateTime) : Nat :=
  ((((((d.year * 13 + d.month) * 32 + d.day) * 24 + d.hour) * 60 + d.minute) * 60
    + d.second) * 1000000 + d.microsecond)

/-- `a` is not later than `b`. -/
def dtLe (a b : PyDateTime) : Prop := dtKey a ≤ dtKey b

/-- Claim C1: for every valid `SessionRecord` (positive minutes,
nonempty tag, in-range timestamp, arbitrary id), the encoded CSV row
parses back as exactly that one row, and decoding that row yields the
record field-for-field — including when the tag contains delimiter or
quote characters, which quoting makes transparent. -/
theorem c1_codec_round_trip (s : StudySession) (hm : 0 < s.minutes) (ht : s.tag ≠ "")
    (hts : ValidDT s.timestamp) :
    runCsv (encodeRow (sessionToRow s)) = [sessionToRow s] ∧
    rowToSession headerFields (sessionToRow s) = some s := by
  constructor
  · exact runCsv_encodeRow_single _ (by simp [sessionToRow])
  · exact rowToSession_sessionToRow s hm ht hts

theorem c1_codec_round_trip_witness :
    ((0 : Int) < 25 ∧ ("k8s,\"x\"\ntag" : String) ≠ "" ∧
      ValidDT ⟨2024, 5, 17, 10, 30, 0, 123456⟩) ∧
    (runCsv (encodeRow (sessionToRow
        ⟨"u1", ⟨2024, 5, 17, 10, 30, 0, 123456⟩, 25, "k8s,\"x\"\ntag"⟩)) =
      [sessionToRow ⟨"u1", ⟨2024, 5, 17, 10, 30, 0, 123456⟩, 25, "k8s,\"x\"\ntag"⟩] ∧
     rowToSession headerFields (sessionToRow
        ⟨"u1", ⟨2024, 5, 17, 10, 30, 0, 123456⟩, 25, "k8s,\"x\"\ntag"⟩) =
      some ⟨"u1", ⟨2024, 5, 17, 10, 30, 0, 123456⟩, 25, "k8s,\"x\"\ntag"⟩) :=
  ⟨⟨by decide, by decide, by decide⟩,
   c1_codec_round_trip ⟨"u1", ⟨2024, 5, 17, 10, 30, 0, 123456⟩, 25, "k8s,\"x\"\ntag"⟩
     (by decide) (by decide) (by decide)⟩

/-- Claim C2: for a valid draft, `save_session` returns a record whose
`minutes` and `tag` are the draft's unchanged, whose `id` is the
freshly generated identifier (hence distinct from every previously
stored id whenever the generator output is fresh), and whose
`timestamp` is the wall-clock instant sampled during the call (hence
not earlier than the call's start whenever the clock did not go
backwards). -/
theorem c2_save_session_spec (st : Option (List Char)) (genId : String)
    (now start : PyDateTime) (d : StudySessionCreate)
    (hm : 0 < d.minutes) (ht : d.tag ≠ "") :
    ∃ s : StudySession,
      (save_session st genId now d).2 = some s ∧
      s.minutes = d.minutes ∧ s.tag = d.tag ∧ s.id = genId ∧ s.timestamp = now ∧
      (∀ prev : List StudySession, (get_all_sessions st).2 = some prev →
        genId ∉ prev.map StudySession.id → s.id ∉ prev.map StudySession.id) ∧
      (dtLe start now → dtLe start s.timestamp) := by
  refine ⟨⟨genId, now, d.minutes, d.tag⟩, ?_, rfl, rfl, rfl, rfl, ?_, ?_⟩
  · rw [save_session, mkStudySession, if_pos ⟨hm, ht⟩]
  · intro prev _ hnotin
    simpa using hnotin
  · intro h
    exact h

theorem c2_save_session_spec_witness :
    ((0 : Int) < 25 ∧ ("AWS" : String) ≠ "") ∧
    (∃ s : StudySession,
      (save_session none "u1" ⟨2024, 1, 2, 3, 4, 5, 6⟩ ⟨25, "AWS"⟩).2 = some s ∧
      s.minutes = 25 ∧ s.tag = "AWS" ∧ s.id = "u1" ∧ s.timestamp = ⟨2024, 1, 2, 3, 4, 5, 6⟩ ∧
      (∀ prev : List StudySession, (get_all_sessions none).2 = some prev →
        "u1" ∉ prev.map StudySession.id → s.id ∉ prev.map StudySession.id) ∧
      (dtLe ⟨2024, 1, 2, 3, 4, 5, 6⟩ ⟨2024, 1, 2, 3, 4, 5, 6⟩ →
        dtLe ⟨2024, 1, 2, 3, 4, 5, 6⟩ s.timestamp)) :=
  ⟨⟨by decide, by decide⟩,
   c2_save_session_spec none "u1" ⟨2024, 1, 2, 3, 4, 5, 6⟩ ⟨2024, 1, 2, 3, 4, 5, 6⟩
     ⟨25, "AWS"⟩ (by decide) (by decide)⟩

/-! ### Failure propagation on reads -/

lemma option_bind_const_none {α β : Type} (o : Option α) :
    (o.bind fun _ => (none : Option β)) = none := by
  cases o <;> rfl

lemma decodeRows_eq_none {header : List (List Char)} {r : List (List Char)}
    (rows : List (List (List Char))) (hr : r ∈ rows)
    (hnone : rowToSession header r = none) :
    decodeRows header rows = none := by
  induction rows with
  | nil => cases hr
  | cons a t ih =>
    rcases List.mem_cons.mp hr with rfl | hmem
    · rw [decodeRows, hnone]
      rfl
    · rw [decodeRows]
      cases ha : rowToSession header a with
      | none => rfl
      | some x =>
        simp only [ih hmem, Option.bind_eq_bind, Option.some_bind, Option.none_bind]

lemma rowToSession_none_missing {header r : List (List Char)}
    (h : dictGet header r idKey = none ∨ dictGet header r tsKey = none ∨
      dictGet header r minKey = none ∨ dictGet header r tagKey = none) :
    rowToSession header r = none := by
  rcases h with h | h | h | h <;>
    simp only [rowToSession, h, Option.bind_eq_bind, Option.none_bind,
      option_bind_const_none]

lemma rowToSession_none_badMinutes {header r : List (List Char)} {mv : List Char}
    (hmv : dictGet header r minKey = some mv)
    (hbad : pyInt mv = none ∨ ∃ n : Int, pyInt mv = some n ∧ n < 0) :
    rowToSession header r = none := by
  rcases hbad with hpy | ⟨n, hpy, hn⟩
  · simp only [rowToSession, hmv, hpy, Option.bind_eq_bind, Option.some_bind,
      Option.none_bind, option_bind_const_none]
  · have hmk : ∀ (i : String) (ts : PyDateTime) (tg : String),
        mkStudySession i ts n tg = none := by
      intro i ts tg
      rw [mkStudySession, if_neg]
      rintro ⟨h1, _⟩
      omega
    simp only [rowToSession, hmv, hpy, Option.bind_eq_bind, Option.some_bind,
      hmk, option_bind_const_none]

lemma rowToSession_none_badTimestamp {header r : List (List Char)} {tv : List Char}
    (htv : dictGet header r tsKey = some tv)
    (hts : fromisoformat tv = none) :
    rowToSession header r = none := by
  simp only [rowToSession, htv, hts, Option.bind_eq_bind, Option.some_bind,
    Option.none_bind, option_bind_const_none]

lemma get_all_sessions_snd_decode (c : List Char) (header : List (List Char))
    (rows : List (List (List Char))) (hparse : runCsv c = header :: rows) :
    (get_all_sessions (some c)).2 = decodeRows header (rows.filter fun r => !r.isEmpty) := by
  rw [get_all_sessions]
  simp only [create_csv_if_not_exists, Option.getD_some, hparse]

/-- Claim C3: a malformed stored row — a required field missing, a
`minutes` field that is not a valid non-negative integer, or a
`timestamp` that cannot be parsed — makes the whole of
`get_all_sessions` fail (the propagated exception is the `none`),
returning no partial result and never silently skipping the row. -/
theorem c3_malformed_row_fails (st : Option (List Char)) (c : List Char)
    (header : List (List Char)) (rows : List (List (List Char))) (r : List (List Char))
    (hst : st = some c) (hparse : runCsv c = header :: rows)
    (hr : r ∈ rows) (hne : r ≠ [])
    (hbad :
      (dictGet header r idKey = none ∨ dictGet header r tsKey = none ∨
       dictGet header r minKey = none ∨ dictGet header r tagKey = none) ∨
      (∃ mv, dictGet header r minKey = some mv ∧
        (pyInt mv = none ∨ ∃ n : Int, pyInt mv = some n ∧ n < 0)) ∨
      (∃ tv, dictGet header r tsKey = some tv ∧ fromisoformat tv = none)) :
    (get_all_sessions st).2 = none := by
  subst hst
  have hrow : rowToSession header r = none := by
    rcases hbad with h | ⟨mv, hmv, hbadm⟩ | ⟨tv, htv, hts⟩
    · exact rowToSession_none_missing h
    · exact rowToSession_none_badMinutes hmv hbadm
    · exact rowToSession_none_badTimestamp htv hts
  have hfil : r ∈ rows.filter fun x => !x.isEmpty := by
    rw [List.mem_filter]
    refine ⟨hr, ?_⟩
    cases r with
    | nil => exact absurd rfl hne
    | cons a t => rfl
  rw [get_all_sessions_snd_decode c header rows hparse]
  exact decodeRows_eq_none _ hfil hrow

theorem c3_malformed_row_fails_witness :
    (runCsv ("id,timestamp,minutes,tag\r\nu1,2024-01-01T00:00:00,xx,k8s\r\n".data) =
      headerFields :: [["u1".data, "2024-01-01T00:00:00".data, "xx".data, "k8s".data]] ∧
     pyInt ("xx".data) = none) ∧
    (get_all_sessions (some ("id,timestamp,minutes,tag\r\nu1,2024-01-01T00:00:00,xx,k8s\r\n".data))).2
      = none :=
  ⟨⟨by decide, by decide⟩,
   c3_malformed_row_fails _ _ headerFields
     [["u1".data, "2024-01-01T00:00:00".data, "xx".data, "k8s".data]]
     ["u1".data, "2024-01-01T00:00:00".data, "xx".data, "k8s".data]
     rfl (by decide) (by decide) (by decide)
     (Or.inr (Or.inl ⟨"xx".data, by decide, Or.inl (by decide)⟩))⟩

/-- Claim C4 is falsified as stated: on an invalid draft with a missing
backing file, `save_session` does fail before appending, but it first
creates the file with its header, so the backing store contents do not
remain unchanged (they go from absent to header-only). -/
theorem c4_counterexample :
    (save_session none "u0" ⟨2024, 1, 2, 3, 4, 5, 6⟩ ⟨0, "x"⟩).2 = none ∧
    ¬ (save_session none "u0" ⟨2024, 1, 2, 3, 4, 5, 6⟩ ⟨0, "x"⟩).1 = none := by
  decide

/-- Claim C4 (amended): for every draft with non-positive minutes or an
empty tag, `save_session` fails with the validation error and appends
no row — the store afterwards equals the store after initialization
alone, so existing contents are untouched, though a missing resource is
still created with only its header (initialization runs before
validation). The re-check happens inside the store itself, via the
model constructor. -/
theorem c4_invalid_draft_rejected (st : Option (List Char)) (genId : String)
    (now : PyDateTime) (d : StudySessionCreate)
    (hbad : d.minutes ≤ 0 ∨ d.tag = "") :
    (save_session st genId now d).2 = none ∧
    (save_session st genId now d).1 = create_csv_if_not_exists st := by
  have hmk : mkStudySession genId now d.minutes d.tag = none := by
    rw [mkStudySession, if_neg]
    rintro ⟨h1, h2⟩
    rcases hbad with h | h
    · omega
    · exact h2 h
  rw [save_session, hmk]
  exact ⟨rfl, rfl⟩

theorem c4_invalid_draft_rejected_witness :
    ((0 : Int) ≤ 0 ∨ ("x" : String) = "") ∧
    ((save_session none "u0" ⟨2024, 1, 2, 3, 4, 5, 6⟩ ⟨0, "x"⟩).2 = none ∧
     (save_session none "u0" ⟨2024, 1, 2, 3, 4, 5, 6⟩ ⟨0, "x"⟩).1 =
       create_csv_if_not_exists none) :=
  ⟨Or.inl (by decide),
   c4_invalid_draft_rejected none "u0" ⟨2024, 1, 2, 3, 4, 5, 6⟩ ⟨0, "x"⟩
     (Or.inl (by decide))⟩

/-- Claim C8: on a missing backing resource, `get_all_sessions`
transparently initializes it — writing only the header row — and
returns the empty sequence, never an error. -/
theorem c8_missing_file_initialized :
    get_all_sessions none = (some headerText, some []) := by decide

/-! ### Aggregation invariants -/

lemma dictKeys_bump (m : List (String × Int)) (k : String) (v : Int) :
    dictKeys (bump m k v) = dictKeys m := by
  induction m with
  | nil => rfl
  | cons p t ih =>
    simp only [bump, dictKeys, List.map_cons] at ih ⊢
    rw [show (if p.1 = k then (p.1, p.2 + v) else p).1 = p.1 from by split <;> rfl, ih]

lemma bump_of_not_mem (m : List (String × Int)) (k : String) (v : Int)
    (h : k ∉ dictKeys m) : bump m k v = m := by
  induction m with
  | nil => rfl
  | cons p t ih =>
    simp only [dictKeys, List.map_cons, List.mem_cons, not_or] at h
    have hp : p.1 ≠ k := fun he => h.1 he.symm
    have ht := ih h.2
    rw [bump, List.map_cons, if_neg hp]
    rw [bump] at ht
    rw [ht]

lemma sumVals_bump_mem (m : List (String × Int)) (k : String) (v : Int)
    (hnd : (dictKeys m).Nodup) (hmem : k ∈ dictKeys m) :
    sumVals (bump m k v) = sumVals m + v := by
  induction m with
  | nil => simp [dictKeys] at hmem
  | cons p t ih =>
    simp only [dictKeys, List.map_cons, List.nodup_cons] at hnd
    simp only [dictKeys, List.map_cons, List.mem_cons] at hmem
    by_cases hp : p.1 = k
    · have hkt : k ∉ dictKeys t := by
        rw [dictKeys, ← hp]
        exact hnd.1
      have hbt := bump_of_not_mem t k v hkt
      rw [bump, List.map_cons, if_pos hp]
      rw [bump] at hbt
      rw [hbt]
      simp only [sumVals, List.map_cons, List.sum_cons]
      omega
    · have hkt : k ∈ dictKeys t := by
        rcases hmem with h | h
        · exact absurd h.symm hp
        · exact h
      have := ih hnd.2 hkt
      rw [bump, List.map_cons, if_neg hp]
      rw [bump] at this
      simp only [sumVals, List.map_cons, List.sum_cons] at this ⊢
      omega

lemma hasKey_iff (m : List (String × Int)) (k : String) :
    hasKey m k = true ↔ k ∈ dictKeys m := by
  rw [hasKey, dictKeys, List.any_eq_true]
  constructor
  · rintro ⟨p, hp, he⟩
    rw [List.mem_map]
    exact ⟨p, hp, by simpa using he⟩
  · intro h
    rw [List.mem_map] at h
    obtain ⟨p, hp, he⟩ := h
    exact ⟨p, hp, by simpa using he⟩

lemma dictKeys_append_single (m : List (String × Int)) (k : String) (v : Int) :
    dictKeys (m ++ [(k, v)]) = dictKeys m ++ [k] := by
  simp [dictKeys]

lemma sumVals_append_zero (m : List (String × Int)) (k : String) :
    sumVals (m ++ [(k, 0)]) = sumVals m := by
  simp [sumVals]

lemma aggStep_spec (tbt sbt : List (String × Int)) (s : StudySession)
    (hk : dictKeys tbt = dictKeys sbt) (hnd : (dictKeys tbt).Nodup)
    (hpos : ∀ p ∈ sbt, 1 ≤ p.2) :
    dictKeys (aggStep (tbt, sbt) s).1 = dictKeys (aggStep (tbt, sbt) s).2 ∧
    (dictKeys (aggStep (tbt, sbt) s).1).Nodup ∧
    sumVals (aggStep (tbt, sbt) s).1 = sumVals tbt + s.minutes ∧
    sumVals (aggStep (tbt, sbt) s).2 = sumVals sbt + 1 ∧
    (∀ p ∈ (aggStep (tbt, sbt) s).2, 1 ≤ p.2) := by
  by_cases hmem : hasKey tbt s.tag
  · have hm1 : s.tag ∈ dictKeys tbt := (hasKey_iff _ _).mp hmem
    have hstep : aggStep (tbt, sbt) s = (bump tbt s.tag s.minutes, bump sbt s.tag 1) := by
      rw [aggStep]
      simp only [hmem, if_true]
    rw [hstep]
    refine ⟨by rw [dictKeys_bump, dictKeys_bump, hk], by rw [dictKeys_bump]; exact hnd,
      sumVals_bump_mem _ _ _ hnd hm1,
      sumVals_bump_mem _ _ _ (hk ▸ hnd) (hk ▸ hm1), ?_⟩
    intro p hp
    simp only [bump, List.mem_map] at hp
    obtain ⟨q, hq, rfl⟩ := hp
    have h1 := hpos q hq
    split <;> simp <;> omega
  · have hm1 : s.tag ∉ dictKeys tbt := fun hc => hmem ((hasKey_iff _ _).mpr hc)
    have hstep : aggStep (tbt, sbt) s =
        (bump (tbt ++ [(s.tag, 0)]) s.tag s.minutes, bump (sbt ++ [(s.tag, 0)]) s.tag 1) := by
      rw [aggStep]
      simp only [hmem, Bool.false_eq_true, if_false]
    have hnd1 : (dictKeys (tbt ++ [(s.tag, 0)])).Nodup := by
      rw [dictKeys_append_single, List.nodup_append]
      refine ⟨hnd, by simp, ?_⟩
      intro a ha hmema
      rw [List.mem_singleton] at hmema
      subst hmema
      exact hm1 ha
    have hmem1 : s.tag ∈ dictKeys (tbt ++ [(s.tag, 0)]) := by
      rw [dictKeys_append_single]
      simp
    have hkeq : dictKeys (tbt ++ [(s.tag, 0)]) = dictKeys (sbt ++ [(s.tag, 0)]) := by
      rw [dictKeys_append_single, dictKeys_append_single, hk]
    rw [hstep]
    refine ⟨by rw [dictKeys_bump, dictKeys_bump, hkeq],
      by rw [dictKeys_bump]; exact hnd1, ?_, ?_, ?_⟩
    · rw [sumVals_bump_mem _ _ _ hnd1 hmem1, sumVals_append_zero]
    · rw [sumVals_bump_mem _ _ _ (hkeq ▸ hnd1) (hkeq ▸ hmem1), sumVals_append_zero]
    · intro p hp
      simp only [bump, List.mem_map] at hp
      obtain ⟨q, hq, rfl⟩ := hp
      rcases List.mem_append.mp hq with hq1 | hq2
      · have h1 := hpos q hq1
        split <;> simp <;> omega
      · rw [List.mem_singleton] at hq2
        subst hq2
        simp

lemma aggregate_fold_inv (l : List StudySession) (tbt sbt : List (String × Int))
    (hk : dictKeys tbt = dictKeys sbt) (hnd : (dictKeys tbt).Nodup)
    (hpos : ∀ p ∈ sbt, 1 ≤ p.2) :
    dictKeys (l.foldl aggStep (tbt, sbt)).1 = dictKeys (l.foldl aggStep (tbt, sbt)).2 ∧
    (dictKeys (l.foldl aggStep (tbt, sbt)).1).Nodup ∧
    sumVals (l.foldl aggStep (tbt, sbt)).1 = sumVals tbt + (l.map (·.minutes)).sum ∧
    sumVals (l.foldl aggStep (tbt, sbt)).2 = sumVals sbt + l.length ∧
    ∀ p ∈ (l.foldl aggStep (tbt, sbt)).2, 1 ≤ p.2 := by
  induction l generalizing tbt sbt with
  | nil => exact ⟨hk, hnd, by simp, by simp, hpos⟩
  | cons s t ih =>
    obtain ⟨k1, k2, k3, k4, k5⟩ := aggStep_spec tbt sbt s hk hnd hpos
    have hpair : ((aggStep (tbt, sbt) s).1, (aggStep (tbt, sbt) s).2) = aggStep (tbt, sbt) s :=
      rfl
    obtain ⟨j1, j2, j3, j4, j5⟩ := ih (aggStep (tbt, sbt) s).1 (aggStep (tbt, sbt) s).2 k1 k2 k5
    rw [hpair] at j1 j2 j3 j4 j5
    rw [List.foldl_cons]
    refine ⟨j1, j2, ?_, ?_, j5⟩
    · rw [j3, k3]
      simp only [List.map_cons, List.sum_cons]
      omega
    · rw [j4, k4]
      simp only [List.length_cons]
      push_cast
      omega

lemma aggStep_keys (tbt sbt : List (String × Int)) (s : StudySession) :
    dictKeys (aggStep (tbt, sbt) s).1 =
      (if s.tag ∈ dictKeys tbt then dictKeys tbt else dictKeys tbt ++ [s.tag]) ∧
    dictKeys (aggStep (tbt, sbt) s).2 =
      (if s.tag ∈ dictKeys tbt then dictKeys sbt else dictKeys sbt ++ [s.tag]) := by
  by_cases hmem : hasKey tbt s.tag
  · have hm1 : s.tag ∈ dictKeys tbt := (hasKey_iff _ _).mp hmem
    have hstep : aggStep (tbt, sbt) s = (bump tbt s.tag s.minutes, bump sbt s.tag 1) := by
      rw [aggStep]
      simp only [hmem, if_true]
    rw [hstep, if_pos hm1, if_pos hm1]
    exact ⟨dictKeys_bump _ _ _, dictKeys_bump _ _ _⟩
  · have hm1 : s.tag ∉ dictKeys tbt := fun hc => hmem ((hasKey_iff _ _).mpr hc)
    have hstep : aggStep (tbt, sbt) s =
        (bump (tbt ++ [(s.tag, 0)]) s.tag s.minutes, bump (sbt ++ [(s.tag, 0)]) s.tag 1) := by
      rw [aggStep]
      simp only [hmem, Bool.false_eq_true, if_false]
    rw [hstep, if_neg hm1, if_neg hm1]
    constructor
    · rw [dictKeys_bump, dictKeys_append_single]
    · rw [dictKeys_bump, dictKeys_append_single]

lemma foldl_keys_firstSeen (l : List StudySession) (tbt sbt : List (String × Int))
    (hk : dictKeys tbt = dictKeys sbt) :
    dictKeys (l.foldl aggStep (tbt, sbt)).1 =
      (l.map (·.tag)).foldl (fun acc t => if t ∈ acc then acc else acc ++ [t]) (dictKeys tbt) ∧
    dictKeys (l.foldl aggStep (tbt, sbt)).2 =
      (l.map (·.tag)).foldl (fun acc t => if t ∈ acc then acc else acc ++ [t]) (dictKeys tbt) := by
  induction l generalizing tbt sbt with
  | nil =>
    refine ⟨rfl, ?_⟩
    simp only [List.foldl_nil, List.map_nil]
    exact hk.symm
  | cons s t ih =>
    obtain ⟨hk1, hk2⟩ := aggStep_keys tbt sbt s
    have hpair : ((aggStep (tbt, sbt) s).1, (aggStep (tbt, sbt) s).2) = aggStep (tbt, sbt) s :=
      rfl
    obtain ⟨j1, j2⟩ := ih (aggStep (tbt, sbt) s).1 (aggStep (tbt, sbt) s).2 (hk1.trans (by
      rw [hk2, hk]))
    rw [hpair] at j1 j2
    rw [List.foldl_cons, List.map_cons, List.foldl_cons]
    exact ⟨by rw [j1, hk1], by rw [j2, hk1]⟩

/-- Claim C5: aggregation keys tags exactly as stored — case-sensitive,
each literal tag string its own key, insertion order equal to
first-encounter order — and the spec's concrete example computes the
stated statistics (independently of ids and timestamps). -/
theorem c5_aggregation_example :
    (∀ i1 i2 i3 t1 t2 t3, aggregate
        [⟨i1, t1, 25, "Kubernetes"⟩, ⟨i2, t2, 50, "AWS"⟩, ⟨i3, t3, 15, "Kubernetes"⟩] =
      { total_time := 90, time_by_tag := [("Kubernetes", 40), ("AWS", 50)],
        total_sessions := 3, sessions_by_tag := [("Kubernetes", 2), ("AWS", 1)] }) ∧
    (∀ i1 i2 t1 t2, aggregate [⟨i1, t1, 10, "AWS"⟩, ⟨i2, t2, 20, "aws"⟩] =
      { total_time := 30, time_by_tag := [("AWS", 10), ("aws", 20)],
        total_sessions := 2, sessions_by_tag := [("AWS", 1), ("aws", 1)] }) ∧
    (∀ l : List StudySession,
      dictKeys (aggregate l).time_by_tag = firstSeen (l.map (·.tag)) ∧
      dictKeys (aggregate l).sessions_by_tag = firstSeen (l.map (·.tag))) := by
  refine ⟨fun i1 i2 i3 t1 t2 t3 => rfl, fun i1 i2 t1 t2 => rfl, fun l => ?_⟩
  have h := foldl_keys_firstSeen l [] [] rfl
  exact ⟨h.1, h.2⟩

/-- Claim C6: `Aggregate` is a total pure function over any session
sequence (it is a Lean function, with no error outcome in its type);
on the empty sequence it returns zero totals and both per-tag maps
present and empty. -/
theorem c6_aggregate_empty :
    aggregate [] = (⟨0, [], 0, []⟩ : Stats) := rfl

/-- Claim C10: every `Stats` value produced by `get_statistics` is
internally consistent: the two maps have the same keys in the same
order, `time_by_tag` sums to `total_time`, `sessions_by_tag` sums to
`total_sessions`, and every per-tag session count is at least 1. -/
theorem c10_stats_invariants (st : Option (List Char)) (stats : Stats)
    (h : (get_statistics st).2 = some stats) :
    dictKeys stats.time_by_tag = dictKeys stats.sessions_by_tag ∧
    sumVals stats.time_by_tag = stats.total_time ∧
    sumVals stats.sessions_by_tag = stats.total_sessions ∧
    ∀ p ∈ stats.sessions_by_tag, 1 ≤ p.2 := by
  have h' : ((get_all_sessions st).2).map aggregate = some stats := h
  rw [Option.map_eq_some'] at h'
  obtain ⟨l, _, hagg⟩ := h'
  subst hagg
  obtain ⟨k1, _, k3, k4, k5⟩ := aggregate_fold_inv l [] [] rfl (by exact List.nodup_nil) (by simp)
  refine ⟨k1, ?_, ?_, k5⟩
  · rw [show (aggregate l).total_time = (l.map (·.minutes)).sum from rfl]
    rw [show (aggregate l).time_by_tag = (l.foldl aggStep ([], [])).1 from rfl]
    rw [k3]
    simp [sumVals]
  · rw [show (aggregate l).total_sessions = (l.length : Int) from rfl]
    rw [show (aggregate l).sessions_by_tag = (l.foldl aggStep ([], [])).2 from rfl]
    rw [k4]
    simp [sumVals]

theorem c10_stats_invariants_witness :
    (get_statistics none).2 = some (⟨0, [], 0, []⟩ : Stats) ∧
    (dictKeys (⟨0, [], 0, []⟩ : Stats).time_by_tag =
       dictKeys (⟨0, [], 0, []⟩ : Stats).sessions_by_tag ∧
     sumVals (⟨0, [], 0, []⟩ : Stats).time_by_tag = (⟨0, [], 0, []⟩ : Stats).total_time ∧
     sumVals (⟨0, [], 0, []⟩ : Stats).sessions_by_tag =
       (⟨0, [], 0, []⟩ : Stats).total_sessions ∧
     ∀ p ∈ (⟨0, [], 0, []⟩ : Stats).sessions_by_tag, 1 ≤ p.2) :=
  ⟨by decide, c10_stats_invariants none ⟨0, [], 0, []⟩ (by decide)⟩

/-- Claim C7: `get_sessions_by_tag t` returns exactly the subsequence
of `get_all_sessions` whose records match `t` case-insensitively
(lowercased tags equal), preserving the original relative order, and
returns the empty list — not an error — when nothing matches. -/
theorem c7_list_by_tag (st : Option (List Char)) (t : String) (l : List StudySession)
    (h : (get_all_sessions st).2 = some l) :
    ∃ res, (get_sessions_by_tag st t).2 = some res ∧
      res = l.filter (fun s => pyLower s.tag == pyLower t) ∧
      res.Sublist l ∧
      (∀ s : StudySession, s ∈ res ↔ s ∈ l ∧ pyLower s.tag = pyLower t) ∧
      ((∀ s ∈ l, pyLower s.tag ≠ pyLower t) → res = []) := by
  refine ⟨l.filter (fun s => pyLower s.tag == pyLower t), ?_, rfl,
    List.filter_sublist _, ?_, ?_⟩
  · have hdef : (get_sessions_by_tag st t).2 =
        ((get_all_sessions st).2).map (fun l => l.filter fun s => pyLower s.tag == pyLower t) :=
      rfl
    rw [hdef, h]
    rfl
  · intro s
    rw [List.mem_filter]
    simp only [beq_iff_eq]
  · intro hnone
    rw [List.filter_eq_nil]
    intro a ha
    simp only [beq_iff_eq]
    exact hnone a ha

theorem c7_list_by_tag_witness :
    (get_all_sessions none).2 = some [] ∧
    (∃ res, (get_sessions_by_tag none "x").2 = some res ∧
      res = List.filter (fun s => pyLower s.tag == pyLower "x") [] ∧
      res.Sublist [] ∧
      (∀ s : StudySession, s ∈ res ↔ s ∈ ([] : List StudySession) ∧
        pyLower s.tag = pyLower "x") ∧
      ((∀ s ∈ ([] : List StudySession), pyLower s.tag ≠ pyLower "x") → res = [])) :=
  ⟨by decide, c7_list_by_tag none "x" [] (by decide)⟩

/-- Claim C9: initialization is idempotent — an existing backing file
is returned byte-for-byte unchanged and never overwritten, and a
second initialization is a no-op — and a valid `save_session`
performed after two explicit initializations appends exactly one new
record: the parsed record list grows by exactly the new encoded row. -/
theorem c9_idempotent_init :
    (∀ c, create_csv_if_not_exists (some c) = some c) ∧
    (∀ st, create_csv_if_not_exists (create_csv_if_not_exists st) =
      create_csv_if_not_exists st) ∧
    (∀ (rs : List (List (List Char))) (genId : String) (now : PyDateTime)
        (d : StudySessionCreate),
      (∀ r ∈ rs, r ≠ []) → 0 < d.minutes → d.tag ≠ "" →
      ∃ c', (save_session (create_csv_if_not_exists (create_csv_if_not_exists
          (some ((rs.map encodeRow).join)))) genId now d).1 = some c' ∧
        runCsv c' = rs ++ [sessionToRow ⟨genId, now, d.minutes, d.tag⟩]) := by
  refine ⟨fun c => rfl, ?_, ?_⟩
  · intro st
    cases st <;> rfl
  · intro rs genId now d hrs hm ht
    rw [show create_csv_if_not_exists (create_csv_if_not_exists
        (some ((rs.map encodeRow).join))) = some ((rs.map encodeRow).join) from rfl]
    rw [save_session, mkStudySession, if_pos ⟨hm, ht⟩]
    refine ⟨(rs.map encodeRow).join ++
      encodeRow (sessionToRow ⟨genId, now, d.minutes, d.tag⟩), rfl, ?_⟩
    have happ : (rs.map encodeRow).join ++
        encodeRow (sessionToRow ⟨genId, now, d.minutes, d.tag⟩) =
        ((rs ++ [sessionToRow ⟨genId, now, d.minutes, d.tag⟩]).map encodeRow).join := by
      simp
    rw [happ]
    apply runCsv_encodeRows
    intro r hr
    rcases List.mem_append.mp hr with h1 | h2
    · exact hrs r h1
    · rw [List.mem_singleton] at h2
      subst h2
      simp [sessionToRow]

theorem c9_idempotent_init_witness :
    ((∀ r ∈ [headerFields], r ≠ []) ∧ (0 : Int) < 25 ∧ ("k8s" : String) ≠ "") ∧
    (∃ c', (save_session (create_csv_if_not_exists (create_csv_if_not_exists
        (some (([headerFields].map encodeRow).join)))) "u" ⟨2024, 1, 2, 3, 4, 5, 6⟩
        ⟨25, "k8s"⟩).1 = some c' ∧
      runCsv c' = [headerFields] ++
        [sessionToRow ⟨"u", ⟨2024, 1, 2, 3, 4, 5, 6⟩, 25, "k8s"⟩]) :=
  ⟨⟨by decide, by decide, by decide⟩,
   c9_idempotent_init.2.2 [headerFields] "u" ⟨2024, 1, 2, 3, 4, 5, 6⟩ ⟨25, "k8s"⟩
     (by decide) (by decide) (by decide)⟩
